import Mathlib

/-!
Shallow embedding of the `lazyprop/rust-webserver` repository.

Source files embedded:
* `src/threadpool.rs` — a fixed-size worker pool: `ThreadPool::new` creates an
  mpsc channel, wraps the receiver in `Arc<Mutex<..>>` and hands a clone to each
  of the `n` spawned workers; each worker loops forever doing
  `rx.lock().unwrap().recv().unwrap()` and invoking the received job.
  `ThreadPool::execute` does `tx.send((f, v)).unwrap()`; `shutdown` has an
  empty body.
* `src/main.rs` — the HTTP dispatcher: `HttpRequest::from_header` parses the
  request line, `HttpServer::route` / `handle_error` / `respond` resolve a
  handler and submit exactly one job to the pool per connection.

The concurrent pool is embedded as a labelled transition system over an
explicit `PoolState`: an `enqueue` step models `execute` (the producer side of
the mpsc channel, FIFO, unbounded), a `dequeue` step models one worker taking
the `Mutex` and receiving the head job (so a job leaves the shared queue into
exactly one worker), and a `finish` step models that worker returning from the
handler call.  Ghost logs (`submitted`, `dequeuedLog`, `executedLog`) record
the event history so that delivery and ordering properties can be stated.

Rust panics (`.unwrap()` on `Err`/`None`) are embedded as `Except` errors.
-/

namespace RustWebserver

/-- Status of one worker thread: parked in `recv` or running a handler.
In `src/threadpool.rs` a worker is busy exactly between `recv().unwrap()`
returning and `f(arg)` returning. -/
inductive WStatus (J : Type) where
  | idle : WStatus J
  | busy : J → WStatus J
deriving DecidableEq

/-- The jobs currently held by a worker: none when idle, one when busy. -/
def WStatus.jobs {J : Type} : WStatus J → List J
  | .idle => []
  | .busy j => [j]

/-- One `Worker` of `src/threadpool.rs`: its `id`, the reference it holds to
the shared `Arc<Mutex<Receiver>>` (all clones of the one receiver, modelled by
the numeric tag of that receiver), and its current status. -/
structure WorkerM (J : Type) where
  id : Nat
  rxRef : Nat
  status : WStatus J
deriving DecidableEq

/-- State of one `ThreadPool` together with the ghost event history.
`queue` is the buffer of the mpsc channel (FIFO), `channelOpen` records
whether the receiving half is still alive (it is dropped when no worker holds
an `Arc` clone of it), and the three logs record submissions, deliveries and
completed handler executions in order. -/
structure PoolState (J : Type) where
  workers : List (WorkerM J)
  queue : List J
  channelOpen : Bool
  submitted : List J
  dequeuedLog : List J
  executedLog : List J
deriving DecidableEq

/-- The jobs currently being executed, one per busy worker. -/
def busyJobs {J : Type} (s : PoolState J) : List J :=
  s.workers.flatMap (fun w => w.status.jobs)

namespace ThreadPool

/-- `ThreadPool::new(n)`: creates the channel, wraps the receiver, and spawns
workers `0, 1, …, n-1`, each holding a clone of the single receiver (tag `0`).
When `n = 0` the local `Arc` is dropped at the end of `new` with no clone
stored anywhere, so the receiving half of the channel is closed. -/
def new (J : Type) (n : Nat) : PoolState J :=
  { workers := (List.range n).map (fun i => { id := i, rxRef := 0, status := .idle }),
    queue := [],
    channelOpen := decide (0 < n),
    submitted := [],
    dequeuedLog := [],
    executedLog := [] }

/-- Error of `std::sync::mpsc::Sender::send`: it fails exactly when the
receiving half of the channel has been dropped. -/
inductive SendError where
  | disconnected : SendError
deriving DecidableEq

/-- The state change performed by a successful `tx.send((f, v))`: the job is
appended to the unbounded FIFO buffer (and to the ghost submission log). -/
def push {J : Type} (s : PoolState J) (j : J) : PoolState J :=
  { s with queue := s.queue ++ [j], submitted := s.submitted ++ [j] }

/-- `self.tx.send((f, v))` inside `ThreadPool::execute`: appends to the
unbounded channel buffer without waiting on consumers; returns
`Err(SendError)` exactly when the receiving half is disconnected. -/
def send {J : Type} (s : PoolState J) (j : J) : Except SendError (PoolState J) :=
  if s.channelOpen then .ok (push s j) else .error .disconnected

/-- `ThreadPool::execute(f, v)`: `self.tx.send((f, v)).unwrap()`.  An `.error`
result models the `unwrap` panic on a closed channel. -/
def execute {J : Type} (s : PoolState J) (j : J) : Except SendError (PoolState J) :=
  send s j

/-- `ThreadPool::shutdown`: the body in `src/threadpool.rs` is empty. -/
def shutdown {J : Type} (s : PoolState J) : PoolState J :=
  s

end ThreadPool

/-- One atomic step of the pool system:
* `enqueue` — a producer thread runs `execute` successfully;
* `dequeue` — an idle worker acquires the `Mutex` around the receiver and
  `recv` returns the head of the queue, making that worker busy (the `Mutex`
  guarantees no other worker receives the same job);
* `finish` — a busy worker returns from `f(arg)` and loops back to `recv`. -/
inductive Step {J : Type} : PoolState J → PoolState J → Prop
  | enqueue (s : PoolState J) (j : J)
      (hopen : s.channelOpen = true) :
      Step s (ThreadPool.push s j)
  | dequeue (s : PoolState J) (pre : List (WorkerM J)) (w : WorkerM J)
      (post : List (WorkerM J)) (j : J) (rest : List J)
      (hw : s.workers = pre ++ w :: post)
      (hidle : w.status = .idle)
      (hq : s.queue = j :: rest) :
      Step s { s with
        workers := pre ++ { w with status := .busy j } :: post,
        queue := rest,
        dequeuedLog := s.dequeuedLog ++ [j] }
  | finish (s : PoolState J) (pre : List (WorkerM J)) (w : WorkerM J)
      (post : List (WorkerM J)) (j : J)
      (hw : s.workers = pre ++ w :: post)
      (hbusy : w.status = .busy j) :
      Step s { s with
        workers := pre ++ { w with status := .idle } :: post,
        executedLog := s.executedLog ++ [j] }

/-- Zero or more steps. -/
def Reaches {J : Type} : PoolState J → PoolState J → Prop :=
  Relation.ReflTransGen Step

/-- Delivery bookkeeping: every submitted job is, at any instant, accounted
for exactly once — already executed, currently held by a busy worker, or
still in the queue. -/
def DeliveryInv {J : Type} [DecidableEq J] (s : PoolState J) : Prop :=
  ∀ j : J, s.submitted.count j =
    s.executedLog.count j + (busyJobs s).count j + s.queue.count j

/-- FIFO bookkeeping: the mpsc channel is order preserving, so the submission
log is exactly the delivery log followed by the jobs still queued. -/
def FifoInv {J : Type} (s : PoolState J) : Prop :=
  s.submitted = s.dequeuedLog ++ s.queue

/-- Sequential-execution bookkeeping for a single-worker pool: deliveries and
completions agree up to the one job possibly in flight. -/
def SeqInv {J : Type} (s : PoolState J) : Prop :=
  s.dequeuedLog = s.executedLog ++ busyJobs s

theorem busyJobs_decomp {J : Type} (s : PoolState J) (pre : List (WorkerM J))
    (w : WorkerM J) (post : List (WorkerM J)) (hw : s.workers = pre ++ w :: post) :
    busyJobs s = pre.flatMap (fun x => x.status.jobs) ++
      (w.status.jobs ++ post.flatMap (fun x => x.status.jobs)) := by
  simp [busyJobs, hw]

theorem Step.workers_sig {J : Type} {s s' : PoolState J} (h : Step s s') :
    s'.workers.map (fun w => (w.id, w.rxRef)) = s.workers.map (fun w => (w.id, w.rxRef)) := by
  cases h <;> simp_all [ThreadPool.push]

theorem Step.workers_length {J : Type} {s s' : PoolState J} (h : Step s s') :
    s'.workers.length = s.workers.length := by
  have := congrArg List.length (Step.workers_sig h)
  simpa using this

theorem Step.channelOpen_eq {J : Type} {s s' : PoolState J} (h : Step s s') :
    s'.channelOpen = s.channelOpen := by
  cases h <;> simp [ThreadPool.push]

theorem reaches_workers_sig {J : Type} {s s' : PoolState J} (h : Reaches s s') :
    s'.workers.map (fun w => (w.id, w.rxRef)) = s.workers.map (fun w => (w.id, w.rxRef)) := by
  induction h with
  | refl => rfl
  | tail _ hstep ih => exact hstep.workers_sig.trans ih

theorem reaches_workers_length {J : Type} {s s' : PoolState J} (h : Reaches s s') :
    s'.workers.length = s.workers.length := by
  have := congrArg List.length (reaches_workers_sig h)
  simpa using this

theorem deliveryInv_step {J : Type} [DecidableEq J] {s s' : PoolState J}
    (h : Step s s') (hinv : DeliveryInv s) : DeliveryInv s' := by
  cases h with
  | enqueue j0 hopen =>
      intro j
      have hj := hinv j
      simp only [ThreadPool.push, busyJobs, List.count_append] at *
      omega
  | dequeue pre w post j0 rest hw hidle hq =>
      intro j
      have hj := hinv j
      rw [busyJobs_decomp _ pre w post hw, hidle, hq] at hj
      rw [busyJobs_decomp _ pre { w with status := .busy j0 } post rfl]
      simp only [WStatus.jobs, List.count_append, List.count_cons,
        List.count_nil] at *
      omega
  | finish pre w post j0 hw hbusy =>
      intro j
      have hj := hinv j
      rw [busyJobs_decomp _ pre w post hw, hbusy] at hj
      rw [busyJobs_decomp _ pre { w with status := .idle } post rfl]
      simp only [WStatus.jobs, List.count_append, List.count_cons,
        List.count_nil] at *
      omega

theorem fifoInv_step {J : Type} {s s' : PoolState J}
    (h : Step s s') (hinv : FifoInv s) : FifoInv s' := by
  cases h with
  | enqueue j0 hopen =>
      simp only [FifoInv, ThreadPool.push] at *
      simp [hinv, List.append_assoc]
  | dequeue pre w post j0 rest hw hidle hq =>
      simp only [FifoInv] at *
      simp [hinv, hq, List.append_assoc]
  | finish pre w post j0 hw hbusy =>
      simpa [FifoInv] using hinv

theorem seqInv_step {J : Type} {s s' : PoolState J}
    (h : Step s s') (hlen : s.workers.length = 1) (hinv : SeqInv s) : SeqInv s' := by
  cases h with
  | enqueue j0 hopen =>
      simpa [SeqInv, ThreadPool.push, busyJobs] using hinv
  | dequeue pre w post j0 rest hw hidle hq =>
      have hpre : pre = [] ∧ post = [] := by
        rw [hw] at hlen
        simp only [List.length_append, List.length_cons] at hlen
        exact ⟨List.eq_nil_of_length_eq_zero (by omega),
          List.eq_nil_of_length_eq_zero (by omega)⟩
      obtain ⟨hp, hq2⟩ := hpre
      subst hp; subst hq2
      have hb := busyJobs_decomp s [] w [] hw
      simp only [SeqInv, busyJobs] at *
      simp_all [WStatus.jobs]
  | finish pre w post j0 hw hbusy =>
      have hpre : pre = [] ∧ post = [] := by
        rw [hw] at hlen
        simp only [List.length_append, List.length_cons] at hlen
        constructor <;>
          exact List.eq_nil_of_length_eq_zero (by omega)
      obtain ⟨hp, hq2⟩ := hpre
      subst hp; subst hq2
      have hb := busyJobs_decomp s [] w [] hw
      simp only [SeqInv, busyJobs] at *
      simp_all [WStatus.jobs]

theorem flatMap_jobs_idle {J : Type} (l : List Nat) :
    (l.map (fun i => ({ id := i, rxRef := 0, status := .idle } : WorkerM J))).flatMap
      (fun w => w.status.jobs) = [] := by
  induction l with
  | nil => rfl
  | cons a l ih => simp [ih, WStatus.jobs]

theorem busyJobs_new {J : Type} (n : Nat) : busyJobs (ThreadPool.new J n) = [] := by
  simp [busyJobs, ThreadPool.new, flatMap_jobs_idle]

theorem deliveryInv_new {J : Type} [DecidableEq J] (n : Nat) :
    DeliveryInv (ThreadPool.new J n) := by
  intro j
  rw [busyJobs_new]
  simp [ThreadPool.new]

theorem fifoInv_new {J : Type} (n : Nat) : FifoInv (ThreadPool.new J n) := by
  simp [FifoInv, ThreadPool.new]

theorem seqInv_new {J : Type} (n : Nat) : SeqInv (ThreadPool.new J n) := by
  simp [SeqInv, ThreadPool.new, busyJobs, WStatus.jobs, List.flatMap_def]

theorem deliveryInv_reaches {J : Type} [DecidableEq J] {s s' : PoolState J}
    (h : Reaches s s') (hinv : DeliveryInv s) : DeliveryInv s' := by
  induction h with
  | refl => exact hinv
  | tail _ hstep ih => exact deliveryInv_step hstep ih

theorem fifoInv_reaches {J : Type} {s s' : PoolState J}
    (h : Reaches s s') (hinv : FifoInv s) : FifoInv s' := by
  induction h with
  | refl => exact hinv
  | tail _ hstep ih => exact fifoInv_step hstep ih

theorem exists_busy_decomp {J : Type} :
    ∀ (l : List (WorkerM J)),
      l.flatMap (fun w => w.status.jobs) ≠ [] →
      ∃ pre w post j, l = pre ++ w :: post ∧ w.status = WStatus.busy j := by
  intro l
  induction l with
  | nil => simp
  | cons hd tl ih =>
      intro h
      cases hst : hd.status with
      | idle =>
          have htl : tl.flatMap (fun w => w.status.jobs) ≠ [] := by
            simpa [hst, WStatus.jobs] using h
          obtain ⟨pre, w, post, j, heq, hb⟩ := ih htl
          exact ⟨hd :: pre, w, post, j, by simp [heq], hb⟩
      | busy j => exact ⟨[], hd, tl, j, rfl, hst⟩

/-- From any pool state with at least one worker, the workers alone (no new
submissions) can run until the queue is empty and every worker is idle; no
step in between changes the submission log or the worker set. -/
theorem drain {J : Type} :
    ∀ (k : Nat) (s : PoolState J),
      2 * s.queue.length + (busyJobs s).length ≤ k →
      s.workers ≠ [] →
      ∃ s', Reaches s s' ∧ s'.queue = [] ∧ busyJobs s' = [] ∧
        s'.submitted = s.submitted := by
  intro k
  induction k with
  | zero =>
      intro s hk _
      refine ⟨s, Relation.ReflTransGen.refl, ?_, ?_, rfl⟩
      · exact List.eq_nil_of_length_eq_zero (by omega)
      · exact List.eq_nil_of_length_eq_zero (by omega)
  | succ k ih =>
      intro s hk hwne
      by_cases hb : busyJobs s = []
      · cases hq : s.queue with
        | nil => exact ⟨s, Relation.ReflTransGen.refl, hq, hb, rfl⟩
        | cons j rest =>
            obtain ⟨w0, ws, hws⟩ := List.exists_cons_of_ne_nil hwne
            have hw0idle : w0.status = WStatus.idle := by
              have : w0.status.jobs ++ ws.flatMap (fun w => w.status.jobs) = [] := by
                have := hb
                rw [busyJobs, hws] at this
                simpa using this
              cases hst : w0.status with
              | idle => rfl
              | busy j0 =>
                  rw [hst] at this
                  simp [WStatus.jobs] at this
            have hstep : Step s { s with
                workers := [] ++ { w0 with status := .busy j } :: ws,
                queue := rest, dequeuedLog := s.dequeuedLog ++ [j] } :=
              Step.dequeue s [] w0 ws j rest (by simpa using hws) hw0idle hq
            set s1 : PoolState J := { s with
                workers := [] ++ { w0 with status := .busy j } :: ws,
                queue := rest, dequeuedLog := s.dequeuedLog ++ [j] } with hs1
            have hbusy1 : busyJobs s1 = [j] ++ ws.flatMap (fun w => w.status.jobs) := by
              simp [hs1, busyJobs, WStatus.jobs]
            have hws0 : ws.flatMap (fun w => w.status.jobs) = [] := by
              have hsb := hb
              rw [busyJobs, hws] at hsb
              simpa [hw0idle, WStatus.jobs] using hsb
            have hmeas : 2 * s1.queue.length + (busyJobs s1).length ≤ k := by
              have hb0 : (busyJobs s).length = 0 := by rw [hb]; rfl
              have hq0 : s.queue.length = rest.length + 1 := by rw [hq]; rfl
              have hq1 : s1.queue = rest := rfl
              rw [hbusy1, hws0, hq1]
              simp only [List.length_append, List.length_cons, List.length_nil]
              omega
            have hne1 : s1.workers ≠ [] := by simp [hs1]
            obtain ⟨s', hr, hq', hb', hsub⟩ := ih s1 hmeas hne1
            exact ⟨s', Relation.ReflTransGen.head hstep hr, hq', hb',
              hsub.trans rfl⟩
      · obtain ⟨pre, w, post, j, hw, hbusy⟩ := exists_busy_decomp s.workers hb
        have hstep : Step s { s with
            workers := pre ++ { w with status := .idle } :: post,
            executedLog := s.executedLog ++ [j] } :=
          Step.finish s pre w post j hw hbusy
        set s1 : PoolState J := { s with
            workers := pre ++ { w with status := .idle } :: post,
            executedLog := s.executedLog ++ [j] } with hs1
        have hbusyS : busyJobs s = pre.flatMap (fun x => x.status.jobs) ++
            ([j] ++ post.flatMap (fun x => x.status.jobs)) := by
          have := busyJobs_decomp s pre w post hw
          rwa [hbusy] at this
        have hbusy1 : busyJobs s1 = pre.flatMap (fun x => x.status.jobs) ++
            ([] ++ post.flatMap (fun x => x.status.jobs)) := by
          exact busyJobs_decomp s1 pre { w with status := .idle } post rfl
        have hmeas : 2 * s1.queue.length + (busyJobs s1).length ≤ k := by
          have h1 := congrArg List.length hbusyS
          have h2 := congrArg List.length hbusy1
          simp only [List.length_append, List.length_cons, List.length_nil] at h1 h2
          have hq1 : s1.queue = s.queue := rfl
          rw [hq1, h2]
          omega
        have hne1 : s1.workers ≠ [] := by
          simp only [hs1]
          intro hcon
          exact absurd (List.append_eq_nil.mp hcon).2 (by simp)
        obtain ⟨s', hr, hq', hb', hsub⟩ := ih s1 hmeas hne1
        exact ⟨s', Relation.ReflTransGen.head hstep hr, hq', hb', hsub.trans rfl⟩

theorem reaches_channelOpen_eq {J : Type} {s s' : PoolState J} (h : Reaches s s') :
    s'.channelOpen = s.channelOpen := by
  induction h with
  | refl => rfl
  | tail _ hstep ih => exact hstep.channelOpen_eq.trans ih

theorem seqInv_reaches_one {J : Type} {s s' : PoolState J} (h : Reaches s s')
    (hlen : s.workers.length = 1) (hinv : SeqInv s) : SeqInv s' := by
  induction h with
  | refl => exact hinv
  | tail hr hstep ih =>
      exact seqInv_step hstep ((reaches_workers_length hr).trans hlen) ih

/-- A pool constructed with zero workers has a closed channel, an empty worker
set, and an empty queue, so no step at all is possible from it. -/
theorem no_step_from_zero {J : Type} {s' : PoolState J}
    (h : Step (ThreadPool.new J 0) s') : False := by
  cases h with
  | enqueue j hopen => simp [ThreadPool.new] at hopen
  | dequeue pre w post j rest hw hidle hq =>
      simp [ThreadPool.new] at hw
  | finish pre w post j hw hbusy =>
      simp [ThreadPool.new] at hw

theorem reaches_zero_fixed {J : Type} {s : PoolState J}
    (h : Reaches (ThreadPool.new J 0) s) : s = ThreadPool.new J 0 := by
  induction h with
  | refl => rfl
  | tail _ hstep ih =>
      rw [ih] at hstep
      exact absurd hstep no_step_from_zero

theorem flatMap_jobs_length_le {J : Type} :
    ∀ l : List (WorkerM J), (l.flatMap (fun w => w.status.jobs)).length ≤ l.length := by
  intro l
  induction l with
  | nil => simp
  | cons hd tl ih =>
      have hone : hd.status.jobs.length ≤ 1 := by
        cases hd.status <;> simp [WStatus.jobs]
      simp only [List.flatMap_cons, List.length_append, List.length_cons]
      omega

/-! ### Worker loop (claim C7)

One iteration of the loop body spawned in `Worker::new`:
`let (f, arg) = _rx.lock().unwrap().recv().unwrap(); f(arg);` -/

/-- Result of `Receiver::recv` on the shared channel: the head job when the
buffer is nonempty, blocking when empty with the sender alive, and
`RecvError` when empty with every sender dropped. -/
inductive RecvRes (J : Type) where
  | got : J → List J → RecvRes J
  | blocked : RecvRes J
  | disconnected : RecvRes J
deriving DecidableEq

def mpscRecv {J : Type} (queue : List J) (sendersAlive : Bool) : RecvRes J :=
  match queue with
  | j :: rest => .got j rest
  | [] => if sendersAlive then .blocked else .disconnected

/-- Outcome of one pass through the worker loop body. -/
inductive IterRes (J : Type) where
  | ran : J → List J → IterRes J
  | waiting : IterRes J
  | terminated : IterRes J
deriving DecidableEq

/-- One iteration of the `loop` in `Worker::new`: `lock().unwrap()` panics on
a poisoned mutex, `recv().unwrap()` panics on a disconnected channel; either
panic terminates the worker thread.  Otherwise the loop body runs the handler
and loops again — there is no other exit. -/
def workerIter {J : Type} (queue : List J) (sendersAlive poisoned : Bool) :
    IterRes J :=
  if poisoned then .terminated
  else
    match mpscRecv queue sendersAlive with
    | .got j rest => .ran j rest
    | .blocked => .waiting
    | .disconnected => .terminated

/-! ### Claim theorems for `src/threadpool.rs` -/

/-- C1: on a pool with at least one worker, every enqueued job is delivered to
exactly one worker and executed exactly once.  From any state reachable from
`ThreadPool::new n` (`n ≥ 1`), the workers can finish the outstanding work,
and in the resulting quiescent state every submitted job appears exactly once
in the delivery log and exactly once in the execution log: no duplication and
no silent drop. -/
theorem c1_exactly_once_delivery {J : Type} [DecidableEq J] (n : Nat) (hn : 1 ≤ n)
    (s : PoolState J) (hs : Reaches (ThreadPool.new J n) s) :
    ∃ s', Reaches s s' ∧ s'.queue = [] ∧ busyJobs s' = [] ∧
      ∀ j : J, s'.dequeuedLog.count j = s.submitted.count j ∧
        s'.executedLog.count j = s.submitted.count j := by
  have hlen : s.workers.length = n := by
    have h := reaches_workers_length hs
    simpa [ThreadPool.new] using h
  have hwne : s.workers ≠ [] := by
    intro hcon
    rw [hcon] at hlen
    simp at hlen
    omega
  obtain ⟨s', hr, hq', hb', hsub⟩ :=
    drain (2 * s.queue.length + (busyJobs s).length) s le_rfl hwne
  refine ⟨s', hr, hq', hb', ?_⟩
  intro j
  have hreach' : Reaches (ThreadPool.new J n) s' :=
    Relation.ReflTransGen.trans hs hr
  have hdel := deliveryInv_reaches hreach' (deliveryInv_new n) j
  have hfifo := fifoInv_reaches hreach' (fifoInv_new n)
  rw [FifoInv, hq', List.append_nil] at hfifo
  rw [hq', hb', hsub] at hdel
  rw [← hfifo, hsub]
  simp at hdel
  omega

/-- Witness for C1 at a concrete instance: one worker, one job enqueued. -/
theorem c1_exactly_once_delivery_witness :
    ∃ s', Reaches (ThreadPool.push (ThreadPool.new Nat 1) 5) s' ∧
      s'.queue = [] ∧ busyJobs s' = [] ∧
      ∀ j : Nat, s'.dequeuedLog.count j =
          (ThreadPool.push (ThreadPool.new Nat 1) 5).submitted.count j ∧
        s'.executedLog.count j =
          (ThreadPool.push (ThreadPool.new Nat 1) 5).submitted.count j :=
  c1_exactly_once_delivery 1 (le_refl 1) _
    (Relation.ReflTransGen.single (Step.enqueue (ThreadPool.new Nat 1) 5 rfl))

/-- C2, corrected, counterexample: on a pool built with `worker_count = 0`
the receiver has been dropped, so `execute` does not succeed — the `send`
returns `Err(SendError)` and the `unwrap` in `ThreadPool::execute` panics. -/
theorem c2_zero_pool_execute_panics :
    ThreadPool.execute (ThreadPool.new Nat 0) 7 =
      Except.error ThreadPool.SendError.disconnected := by
  rfl

/-- C2, amended: `ThreadPool::new(0)` stores no clone of the receiver, so the
channel is closed; every call to `execute` fails (panics on `unwrap` of the
send error), nothing is ever enqueued, and no handler ever executes. -/
theorem c2_zero_pool_behaviour {J : Type} (j : J) (s : PoolState J)
    (hs : Reaches (ThreadPool.new J 0) s) :
    ThreadPool.execute s j = Except.error ThreadPool.SendError.disconnected ∧
      s.queue = [] ∧ s.submitted = [] ∧ s.executedLog = [] := by
  have hfix := reaches_zero_fixed hs
  subst hfix
  exact ⟨rfl, rfl, rfl, rfl⟩

/-- Witness for the amended C2 at a concrete instance. -/
theorem c2_zero_pool_behaviour_witness :
    ThreadPool.execute (ThreadPool.new Nat 0) 9 =
        Except.error ThreadPool.SendError.disconnected ∧
      (ThreadPool.new Nat 0).queue = [] ∧
      (ThreadPool.new Nat 0).submitted = [] ∧
      (ThreadPool.new Nat 0).executedLog = [] :=
  c2_zero_pool_behaviour 9 (ThreadPool.new Nat 0) Relation.ReflTransGen.refl

/-- C3: `execute` enqueues without waiting on consumers — it succeeds in one
step whatever the queue length and worker states; its only failure mode is a
closed channel; and a successful call runs no handler and surfaces nothing
from handlers: it only appends the job to the queue. -/
theorem c3_execute_contract {J : Type} (s : PoolState J) (j : J) :
    (ThreadPool.execute s j = Except.error ThreadPool.SendError.disconnected ↔
        s.channelOpen = false) ∧
      (s.channelOpen = true → ThreadPool.execute s j = Except.ok (ThreadPool.push s j)) ∧
      (∀ s1, ThreadPool.execute s j = Except.ok s1 →
        s1.executedLog = s.executedLog ∧ s1.dequeuedLog = s.dequeuedLog ∧
          s1.workers = s.workers ∧ s1.queue = s.queue ++ [j]) := by
  unfold ThreadPool.execute ThreadPool.send
  cases hopen : s.channelOpen with
  | false =>
      refine ⟨by simp, by simp, ?_⟩
      intro s1 h
      simp at h
  | true =>
      refine ⟨by simp, by simp, ?_⟩
      intro s1 h
      simp at h
      rw [← h]
      exact ⟨rfl, rfl, rfl, rfl⟩

/-- Witness for C3 at a concrete instance. -/
theorem c3_execute_contract_witness :
    (ThreadPool.execute (ThreadPool.new Nat 2) 4 =
          Except.error ThreadPool.SendError.disconnected ↔
        (ThreadPool.new Nat 2).channelOpen = false) ∧
      ((ThreadPool.new Nat 2).channelOpen = true →
        ThreadPool.execute (ThreadPool.new Nat 2) 4 =
          Except.ok (ThreadPool.push (ThreadPool.new Nat 2) 4)) ∧
      (∀ s1, ThreadPool.execute (ThreadPool.new Nat 2) 4 = Except.ok s1 →
        s1.executedLog = (ThreadPool.new Nat 2).executedLog ∧
          s1.dequeuedLog = (ThreadPool.new Nat 2).dequeuedLog ∧
          s1.workers = (ThreadPool.new Nat 2).workers ∧
          s1.queue = (ThreadPool.new Nat 2).queue ++ [4]) :=
  c3_execute_contract (ThreadPool.new Nat 2) 4

/-- C4: jobs are delivered in submission order — in every reachable state the
submission log equals the delivery log followed by the still-queued jobs; and
on a pool of size 1 the execution log is likewise a prefix of the submission
order (handlers run in exactly the submission order). -/
theorem c4_fifo_order {J : Type} (n : Nat) (s : PoolState J)
    (hs : Reaches (ThreadPool.new J n) s) :
    s.submitted = s.dequeuedLog ++ s.queue ∧
      (n = 1 → s.submitted = s.executedLog ++ (busyJobs s ++ s.queue)) := by
  have hfifo := fifoInv_reaches hs (fifoInv_new n)
  refine ⟨hfifo, ?_⟩
  intro hn1
  subst hn1
  have hseq := seqInv_reaches_one hs (by simp [ThreadPool.new]) (seqInv_new 1)
  rw [FifoInv] at hfifo
  rw [SeqInv] at hseq
  rw [hfifo, hseq, List.append_assoc]

/-- Witness for C4 at a concrete instance: one job enqueued on a pool of
size 1. -/
theorem c4_fifo_order_witness :
    (ThreadPool.push (ThreadPool.new Nat 1) 5).submitted =
        (ThreadPool.push (ThreadPool.new Nat 1) 5).dequeuedLog ++
          (ThreadPool.push (ThreadPool.new Nat 1) 5).queue ∧
      (1 = 1 → (ThreadPool.push (ThreadPool.new Nat 1) 5).submitted =
        (ThreadPool.push (ThreadPool.new Nat 1) 5).executedLog ++
          (busyJobs (ThreadPool.push (ThreadPool.new Nat 1) 5) ++
            (ThreadPool.push (ThreadPool.new Nat 1) 5).queue)) :=
  c4_fifo_order 1 _
    (Relation.ReflTransGen.single (Step.enqueue (ThreadPool.new Nat 1) 5 rfl))

/-- C5: `ThreadPool::new(n)` spawns exactly the workers `0, …, n-1`, all
holding a clone of the single receiver (tag `0`), and no step ever adds or
removes a worker or reseats its receiver: in every reachable state the worker
ids and receiver references are exactly those created by `new`. -/
theorem c5_construction {J : Type} (n : Nat) (s : PoolState J)
    (hs : Reaches (ThreadPool.new J n) s) :
    (ThreadPool.new J n).workers.length = n ∧
      (ThreadPool.new J n).workers.map WorkerM.id = List.range n ∧
      (∀ w ∈ (ThreadPool.new J n).workers, w.rxRef = 0) ∧
      s.workers.map (fun w => (w.id, w.rxRef)) =
        (List.range n).map (fun i => (i, 0)) := by
  have hc : (WorkerM.id ∘ fun i =>
      ({ id := i, rxRef := 0, status := WStatus.idle } : WorkerM J)) = fun i => i := rfl
  refine ⟨by simp [ThreadPool.new], by simp [ThreadPool.new, hc], ?_, ?_⟩
  · intro w hw
    simp [ThreadPool.new] at hw
    obtain ⟨i, _, hi⟩ := hw
    rw [← hi]
  · have h := reaches_workers_sig hs
    rw [h]
    simp [ThreadPool.new, Function.comp]

/-- Witness for C5 at a concrete instance. -/
theorem c5_construction_witness :
    (ThreadPool.new Nat 3).workers.length = 3 ∧
      (ThreadPool.new Nat 3).workers.map WorkerM.id = List.range 3 ∧
      (∀ w ∈ (ThreadPool.new Nat 3).workers, w.rxRef = 0) ∧
      (ThreadPool.new Nat 3).workers.map (fun w => (w.id, w.rxRef)) =
        (List.range 3).map (fun i => (i, 0)) :=
  c5_construction 3 (ThreadPool.new Nat 3) Relation.ReflTransGen.refl

/-- C6: `ThreadPool::shutdown` is a no-op — it returns the state unchanged:
same workers (none stopped), same queue (nothing drained), same sender. -/
theorem c6_shutdown_noop {J : Type} (s : PoolState J) :
    ThreadPool.shutdown s = s ∧
      (ThreadPool.shutdown s).workers = s.workers ∧
      (ThreadPool.shutdown s).queue = s.queue ∧
      (ThreadPool.shutdown s).channelOpen = s.channelOpen ∧
      (ThreadPool.shutdown s).executedLog = s.executedLog :=
  ⟨rfl, rfl, rfl, rfl, rfl⟩

/-- C7: the worker loop in `Worker::new` has no exit condition: an iteration
terminates the worker thread exactly when the receive fails fatally (poisoned
mutex or disconnected channel); under normal operation (senders alive, mutex
not poisoned) the worker never leaves the loop. -/
theorem c7_worker_loop_exit {J : Type} (queue : List J)
    (sendersAlive poisoned : Bool) :
    (workerIter queue sendersAlive poisoned = IterRes.terminated ↔
        poisoned = true ∨ (queue = [] ∧ sendersAlive = false)) ∧
      (sendersAlive = true → poisoned = false →
        workerIter queue sendersAlive poisoned ≠ IterRes.terminated) := by
  cases poisoned <;> cases sendersAlive <;> cases queue <;>
    simp [workerIter, mpscRecv]

/-- Witness for C7 at a concrete instance. -/
theorem c7_worker_loop_exit_witness :
    (workerIter ([] : List Nat) false false = IterRes.terminated ↔
        false = true ∨ (([] : List Nat) = [] ∧ false = false)) ∧
      (false = true → false = false →
        workerIter ([] : List Nat) false false ≠ IterRes.terminated) :=
  c7_worker_loop_exit [] false false

/-- C8: with pool size `K` at most `K` jobs are in execution at once; when
every worker is busy no step can deliver a further job (a `(K+1)`-th job
starts only after some worker finishes); and (for distinct jobs) a job in
execution is owned by exactly one worker. -/
theorem c8_parallelism_bound {J : Type} [DecidableEq J] (n : Nat)
    (s s' : PoolState J) (hs : Reaches (ThreadPool.new J n) s) :
    (busyJobs s).length ≤ n ∧
      ((∀ w ∈ s.workers, w.status ≠ WStatus.idle) → Step s s' →
        s'.dequeuedLog = s.dequeuedLog) ∧
      (s.submitted.Nodup → ∀ j : J, (busyJobs s).count j ≤ 1) := by
  have hlen : s.workers.length = n := by
    have h := reaches_workers_length hs
    simpa [ThreadPool.new] using h
  refine ⟨?_, ?_, ?_⟩
  · rw [← hlen]
    exact flatMap_jobs_length_le s.workers
  · intro hallbusy hstep
    cases hstep with
    | enqueue j hopen => rfl
    | dequeue pre w post j rest hw hidle hq =>
        exact absurd hidle (hallbusy w (by rw [hw]; simp))
    | finish pre w post j hw hbusy => rfl
  · intro hnodup j
    have hdel := deliveryInv_reaches hs (deliveryInv_new n) j
    have hsub : s.submitted.count j ≤ 1 :=
      List.nodup_iff_count_le_one.mp hnodup j
    omega

/-- Witness for C8 at a concrete instance. -/
theorem c8_parallelism_bound_witness :
    (busyJobs (ThreadPool.new Nat 2)).length ≤ 2 ∧
      ((∀ w ∈ (ThreadPool.new Nat 2).workers, w.status ≠ WStatus.idle) →
        Step (ThreadPool.new Nat 2) (ThreadPool.new Nat 2) →
        (ThreadPool.new Nat 2).dequeuedLog = (ThreadPool.new Nat 2).dequeuedLog) ∧
      ((ThreadPool.new Nat 2).submitted.Nodup →
        ∀ j : Nat, (busyJobs (ThreadPool.new Nat 2)).count j ≤ 1) :=
  c8_parallelism_bound 2 (ThreadPool.new Nat 2) (ThreadPool.new Nat 2)
    Relation.ReflTransGen.refl

/-! ### `src/main.rs`: request parsing and the dispatcher

`TcpStream` is modelled by an opaque connection identifier (`Nat`).  Route and
error handlers are closures in the source; they are identified here by their
registration key (`HandlerK`), which is all the dispatcher-side claims need: a
submission to the pool is the pair of the resolved handler and the connection
moved into the job. -/

/-- `enum HttpError` of `src/main.rs`. -/
inductive HttpError where
  | BadRequest : HttpError
  | NotFound : HttpError
  | InternalServerError : HttpError
deriving DecidableEq

/-- `HttpError::to_string`. -/
def HttpError.to_string : HttpError → String
  | .BadRequest => "400 Bad Request"
  | .NotFound => "404 Not Found"
  | .InternalServerError => "500 Internal Server Error"

/-- `enum HttpMethod` of `src/main.rs`. -/
inductive HttpMethod where
  | GET : HttpMethod
  | POST : HttpMethod
  | PUT : HttpMethod
  | DELETE : HttpMethod
deriving DecidableEq

/-- `struct HttpRequest` of `src/main.rs`. -/
structure HttpRequest where
  method : HttpMethod
  uri : String
deriving DecidableEq

/-- A thread panic (`unwrap` on `None` / `Err`). -/
inductive Panic where
  | unwrapFailed : Panic
deriving DecidableEq

/-- Equality of `Except` values is decidable componentwise. -/
instance {α β : Type} [DecidableEq α] [DecidableEq β] : DecidableEq (Except α β) :=
  fun a b =>
    match a, b with
    | .ok x, .ok y =>
        if h : x = y then isTrue (congrArg Except.ok h)
        else isFalse (fun hc => h (Except.ok.inj hc))
    | .error x, .error y =>
        if h : x = y then isTrue (congrArg Except.error h)
        else isFalse (fun hc => h (Except.error.inj hc))
    | .ok _, .error _ => isFalse (fun hc => Except.noConfusion hc)
    | .error _, .ok _ => isFalse (fun hc => Except.noConfusion hc)

/-- Worker for `splitWhitespace`: scans the characters, accumulating the
current word reversed. -/
def splitWhitespaceAux : List Char → List Char → List String
  | [], [] => []
  | [], cur => [String.mk cur.reverse]
  | c :: rest, cur =>
    if c.isWhitespace then
      match cur with
      | [] => splitWhitespaceAux rest []
      | _ => String.mk cur.reverse :: splitWhitespaceAux rest []
    else splitWhitespaceAux rest (c :: cur)

/-- Rust `str::split_whitespace`: the maximal non-empty runs of
non-whitespace characters, in order. -/
def splitWhitespace (s : String) : List String :=
  splitWhitespaceAux s.data []

/-- `HttpRequest::from_header`.  An empty request vector returns `None`;
otherwise `words.next().unwrap()` is called twice on the first line before the
method is matched, so a first line with fewer than two whitespace-separated
tokens panics; with two or more tokens, an unknown method returns `None`. -/
def HttpRequest.from_header (req : List String) :
    Except Panic (Option HttpRequest) :=
  match req with
  | [] => .ok none
  | line :: _ =>
    match splitWhitespace line with
    | [] => .error .unwrapFailed
    | [_] => .error .unwrapFailed
    | m :: r :: _ =>
      if m = "GET" then .ok (some { method := .GET, uri := r })
      else if m = "POST" then .ok (some { method := .POST, uri := r })
      else if m = "PUT" then .ok (some { method := .PUT, uri := r })
      else if m = "DELETE" then .ok (some { method := .DELETE, uri := r })
      else .ok none

/-- Identity of a handler closure held in the route or error tables of
`HttpServer`: route handlers are keyed by the `(method, uri)` they were
registered under in `add_route`, error handlers by their `HttpError` kind. -/
inductive HandlerK where
  | routeH : HttpMethod → String → HandlerK
  | errorH : HttpError → HandlerK
deriving DecidableEq

/-- `HashMap::get` over the association list representing the map; the most
recent insertion for a key is found first. -/
def lookupA {κ β : Type} [DecidableEq κ] : List (κ × β) → κ → Option β
  | [], _ => none
  | (k, v) :: rest, key => if key = k then some v else lookupA rest key

/-- The three error handlers inserted by `HttpServer::new`. -/
def errorHandlersInit : List (HttpError × HandlerK) :=
  [(.NotFound, .errorH .NotFound),
   (.BadRequest, .errorH .BadRequest),
   (.InternalServerError, .errorH .InternalServerError)]

/-- `type HttpResponse = Result<String, HttpError>`. -/
abbrev HttpResponse := Except HttpError String

/-- `struct HttpServer`, with handlers represented by their `HandlerK`
identity (the thread pool itself is modelled separately by `PoolState`). -/
structure HttpServer where
  addr : String
  routes : List ((HttpMethod × String) × HandlerK)
  error_handlers : List (HttpError × HandlerK)
deriving DecidableEq

/-- `HttpServer::new`: empty route table, the three error handlers. -/
def HttpServer.new (addr : String) : HttpServer :=
  { addr := addr, routes := [], error_handlers := errorHandlersInit }

/-- `HttpServer::add_route`: registers the wrapped handler closure under the
`(method, uri)` key. -/
def HttpServer.add_route (s : HttpServer) (m : HttpMethod) (uri : String) :
    HttpServer :=
  { s with routes := ((m, uri), HandlerK.routeH m uri) :: s.routes }

/-- `HttpServer::handle_error`: looks the error handler up
(`.get(&err).unwrap()` — a panic if absent), submits one job carrying the
stream to the pool, and returns `Err(err)`.  The returned list is the
submissions made to the pool by this call. -/
def HttpServer.handle_error (s : HttpServer) (stream : Nat) (err : HttpError) :
    Except Panic (HttpResponse × List (HandlerK × Nat)) :=
  match lookupA s.error_handlers err with
  | some h => .ok (.error err, [(h, stream)])
  | none => .error .unwrapFailed

/-- `HttpServer::route`: on a hit submits the route handler with the stream,
otherwise falls back to `handle_error(stream, NotFound)`. -/
def HttpServer.route (s : HttpServer) (stream : Nat) (req : HttpRequest) :
    Except Panic (HttpResponse × List (HandlerK × Nat)) :=
  match lookupA s.routes (req.method, req.uri) with
  | some f => .ok (.ok "NotImplement: thread not joining", [(f, stream)])
  | none => s.handle_error stream .NotFound

/-- `HttpServer::respond`: parses the request lines read from the connection
and dispatches — `route` on a parsed request, `handle_error(BadRequest)` when
`from_header` returns `None`.  The result is the list of submissions made to
the pool for this connection; a `from_header` panic propagates (the server
thread dies before submitting anything). -/
def HttpServer.respond (s : HttpServer) (stream : Nat) (reqLines : List String) :
    Except Panic (List (HandlerK × Nat)) :=
  match HttpRequest.from_header reqLines with
  | .error p => .error p
  | .ok (some r) => (s.route stream r).map (fun x => x.2)
  | .ok none => (s.handle_error stream HttpError.BadRequest).map (fun x => x.2)

/-! ### Claim theorems for `src/main.rs` -/

/-- C10: `from_header` returns `None` only when the request-line vector is
empty or the first token of the first line is not one of GET, POST, PUT,
DELETE; and a non-empty request whose first line has fewer than two
whitespace-separated tokens panics on `unwrap` instead of returning `None`. -/
theorem c10_from_header_characterisation (req : List String) :
    (HttpRequest.from_header req = Except.ok none →
      req = [] ∨ ∃ m rest, splitWhitespace req.head! = m :: rest ∧
        m ∉ (["GET", "POST", "PUT", "DELETE"] : List String)) ∧
    (req ≠ [] → (splitWhitespace req.head!).length < 2 →
      HttpRequest.from_header req = Except.error Panic.unwrapFailed) := by
  cases req with
  | nil =>
      exact ⟨fun _ => Or.inl rfl, fun h => absurd rfl h⟩
  | cons line tail =>
      constructor
      · intro h
        simp only [HttpRequest.from_header] at h
        cases hsp : splitWhitespace line with
        | nil => rw [hsp] at h; simp at h
        | cons m tl =>
            cases tl with
            | nil => rw [hsp] at h; simp at h
            | cons r tl2 =>
                rw [hsp] at h
                refine Or.inr ⟨m, r :: tl2, by simpa using hsp, ?_⟩
                intro hmem
                simp at hmem
                rcases hmem with h1 | h1 | h1 | h1 <;> subst h1 <;> simp at h
      · intro _ hlen
        have hh : (line :: tail).head! = line := rfl
        rw [hh] at hlen
        simp only [HttpRequest.from_header]
        cases hsp : splitWhitespace line with
        | nil => rfl
        | cons m tl =>
            cases tl with
            | nil => rfl
            | cons r tl2 =>
                rw [hsp] at hlen
                exfalso
                simp only [List.length_cons] at hlen
                omega

/-- Witness for C10 at the concrete input `["GET"]`: a bare method with no
URI panics. -/
theorem c10_from_header_witness :
    HttpRequest.from_header ["GET"] = Except.error Panic.unwrapFailed :=
  (c10_from_header_characterisation ["GET"]).2 (by decide) (by decide)

/-- C9, counterexample to the claim as stated: on the connection whose
request line is the single token `GET`, the dispatcher panics inside
`from_header` before resolving any handler, so zero jobs (not exactly one)
are submitted for that connection. -/
theorem c9_zero_submissions_on_panic :
    (HttpServer.new "127.0.0.1:8080").respond 0 ["GET"] =
      Except.error Panic.unwrapFailed := by
  decide

/-- C9, amended: for every connection on which `respond` returns (i.e. the
request-line parse does not panic), exactly one handler is resolved — the
matching route handler if registered, otherwise an error handler — and
exactly one job carrying that connection is submitted to the pool. -/
theorem c9_one_submission_per_connection (s : HttpServer) (stream : Nat)
    (reqLines : List String) (subs : List (HandlerK × Nat))
    (herr : s.error_handlers = errorHandlersInit)
    (h : s.respond stream reqLines = Except.ok subs) :
    ∃ hk : HandlerK, subs = [(hk, stream)] := by
  unfold HttpServer.respond at h
  split at h
  · simp at h
  · unfold HttpServer.route at h
    split at h
    · rename_i f heqf
      simp only [Except.map] at h
      injection h with h2
      exact ⟨f, h2.symm⟩
    · unfold HttpServer.handle_error at h
      rw [herr] at h
      simp [errorHandlersInit, lookupA, Except.map] at h
      exact ⟨.errorH .NotFound, h.symm⟩
  · unfold HttpServer.handle_error at h
    rw [herr] at h
    simp [errorHandlersInit, lookupA, Except.map] at h
    exact ⟨.errorH .BadRequest, h.symm⟩

/-- Witness for the amended C9 at a concrete instance: a registered route is
hit and exactly one job is submitted, carrying the connection. -/
theorem c9_one_submission_witness :
    ∃ hk : HandlerK, [(HandlerK.routeH HttpMethod.GET "/", 5)] = [(hk, 5)] :=
  c9_one_submission_per_connection
    ((HttpServer.new "127.0.0.1:8080").add_route HttpMethod.GET "/") 5
    ["GET / HTTP/1.1"] [(HandlerK.routeH HttpMethod.GET "/", 5)]
    rfl (by decide)

end RustWebserver
